import Mathlib

/-!
Shallow embedding of the key-partitioned resource pool in
`src/internal/pool.js`.

The pool's per-key state — idle resource lists (`this._pools`), active
resource counters (`this._activeResourceCounts`) and pending acquisition
request queues (`this._acquireRequests`) — is modelled as association
lists with JavaScript object semantics (first occurrence wins on lookup,
assignment updates in place, `delete` removes the entry).

JavaScript's asynchrony is made explicit: every `.then`/`.catch`
continuation of the promise chains in `acquire`, `_acquire` and
`_processPendingAcquireRequests` becomes a `PTask` carried in the state,
an outstanding factory call is a task in `waitingFactory` status, and the
scheduler's choices (when a factory settles, when a microtask runs, when
a `setTimeout` timer fires) are the events of a step interpreter
`Pool.step`.  Reachable pool states are exactly the results of
`Pool.run` on event lists.

Calls to the injected `destroy` collaborator, deliveries of resources to
callers and rejections of callers' promises are recorded in chronological
logs inside the state.
-/

/-- Resource group identifier (a server address string in the driver). -/
abbrev Key := Nat

/-- Opaque resource value produced by the factory; the pool never
inspects it. -/
abbrev Res := Nat

/-- Errors surfaced to `acquire` callers: the acquisition timeout created
by `newError` with the configured duration, or an error propagated
verbatim from the factory's rejected promise. -/
inductive Err where
  | timeoutErr (ms : Nat)
  | factoryErr (e : Nat)
  deriving DecidableEq

/-- Pool configuration (`PoolConfig`): `maxSize` (0 means unbounded, as
`this._maxSize` is falsy), `acquisitionTimeout`, and the injected
`validate` predicate. -/
structure PoolConfig where
  maxSize : Nat
  acquisitionTimeout : Nat
  validate : Res → Bool

/-- Association-list lookup, modelling JavaScript property access
`obj[key]` (`undefined` becomes `none`). -/
def lookupA {β : Type} : List (Key × β) → Key → Option β
  | [], _ => none
  | (k, v) :: t, key => if k = key then some v else lookupA t key

/-- Association-list assignment `obj[key] = v`: updates the existing
entry in place, or appends a new one (JavaScript string-keyed objects
keep insertion order). -/
def insertA {β : Type} : List (Key × β) → Key → β → List (Key × β)
  | [], key, v => [(key, v)]
  | (k, w) :: t, key, v =>
    if k = key then (key, v) :: t else (k, w) :: insertA t key v

/-- Association-list deletion `delete obj[key]`. -/
def eraseA {β : Type} (l : List (Key × β)) (key : Key) : List (Key × β) :=
  l.filter fun p => p.1 ≠ key

/-- A `PendingRequest` object: its identity, the key of the queue it was
pushed on (captured by the timer closure), the `_completed` flag, and
whether its `setTimeout` timer is still pending (`_timeoutId` not yet
cleared or fired). -/
structure PendingRequest where
  reqId : Nat
  key : Key
  completed : Bool
  timerActive : Bool
  deriving DecidableEq

/-- Method `isCompleted` of `PendingRequest`. -/
def PendingRequest.isCompleted (p : PendingRequest) : Bool :=
  p.completed

/-- Method `resolve` of `PendingRequest`: a no-op on a completed request; otherwise
sets `_completed`, clears the timer and fires the stored `resolve`
callback.  The boolean reports whether the callback fired. -/
def PendingRequest.resolve (p : PendingRequest) : PendingRequest × Bool :=
  if p.completed then (p, false)
  else ({ p with completed := true, timerActive := false }, true)

/-- Method `reject` of `PendingRequest`: a no-op on a completed request; otherwise
sets `_completed`, clears the timer and fires the stored `reject`
callback.  The boolean reports whether the callback fired. -/
def PendingRequest.reject (p : PendingRequest) : PendingRequest × Bool :=
  if p.completed then (p, false)
  else ({ p with completed := true, timerActive := false }, true)

/-- The continuation a pending promise settles into: the `.then` inside
`acquire` (a direct caller identified by its task id), or the
`.catch(...).then(...)` chain inside `_processPendingAcquireRequests`
acting for a dequeued pending request. -/
inductive TaskCont where
  | direct (key : Key)
  | forRequest (key : Key) (reqId : Nat)
  deriving DecidableEq

/-- Status of an asynchronous task: still waiting on the factory's
promise, settled with `some` resource or with `null`, or rejected. -/
inductive TStatus where
  | waitingFactory
  | ready (res : Option Res)
  | failed (e : Err)
  deriving DecidableEq

/-- An outstanding asynchronous continuation. -/
structure PTask where
  tid : Nat
  cont : TaskCont
  status : TStatus
  deriving DecidableEq

/-- The whole pool state: the three per-key maps of the source, the
registry of every `PendingRequest` object created so far, the
outstanding asynchronous tasks, a fresh-id counter, and chronological
logs of `destroy` calls, resource deliveries `(callerId, key, resource)`
and promise rejections `(callerId, error)`. -/
structure PoolState where
  pools : List (Key × List Res)
  acquireRequests : List (Key × List Nat)
  activeResourceCounts : List (Key × Nat)
  requests : List PendingRequest
  tasks : List PTask
  nextId : Nat
  destroyed : List Res
  deliveries : List (Nat × Key × Res)
  rejections : List (Nat × Err)
  deriving DecidableEq

/-- The state built by the `Pool` constructor: all maps empty. -/
def initState : PoolState :=
  ⟨[], [], [], [], [], 0, [], [], []⟩

/-- Function `resourceAcquired`: increment the active counter for `key`
(missing entry reads as 0). -/
def resourceAcquired (key : Key) (activeResourceCounts : List (Key × Nat)) :
    List (Key × Nat) :=
  let currentCount := (lookupA activeResourceCounts key).getD 0
  insertA activeResourceCounts key (currentCount + 1)

/-- Function `resourceReleased`: decrement the active counter for `key`, deleting
the entry when the next count is not positive. -/
def resourceReleased (key : Key) (activeResourceCounts : List (Key × Nat)) :
    List (Key × Nat) :=
  let currentCount := (lookupA activeResourceCounts key).getD 0
  let nextCount := currentCount - 1
  if 0 < nextCount then insertA activeResourceCounts key nextCount
  else eraseA activeResourceCounts key

/-- The `while (pool.length)` pop/validate/destroy loop of `_acquire`.
Idle lists are stored with the stack top (the JavaScript array's end,
where `push`/`pop` operate) at the head.  Returns the first popped
resource that validates (if any), the remaining idle list, and the
popped resources that failed validation, in pop order, handed to
`destroy`. -/
def scanIdle (validate : Res → Bool) : List Res → Option Res × List Res × List Res
  | [] => (none, [], [])
  | r :: rest =>
    if validate r then (some r, rest, [])
    else
      let (found, remaining, destroyedList) := scanIdle validate rest
      (found, remaining, r :: destroyedList)

/-- Outcome of the synchronous part of `_acquire`: an idle resource was
popped and validated, capacity is exhausted (the promise resolves with
`null`), or the factory is invoked for a new resource. -/
inductive AcqResult where
  | got (r : Res)
  | atCapacity
  | createNew
  deriving DecidableEq

/-- Method `activeResourceCount`: the counter value, or 0 when untracked. -/
def Pool.activeResourceCount (s : PoolState) (key : Key) : Nat :=
  (lookupA s.activeResourceCounts key).getD 0

/-- Synchronous body of `_acquire`: initialize `this._pools[key]` if
absent, run the pop/validate/destroy loop, then either hand back the
validated idle resource, report capacity exhaustion when `maxSize` is
truthy and `activeResourceCount(key) >= maxSize`, or call the factory. -/
def Pool.acquireSync (cfg : PoolConfig) (s : PoolState) (key : Key) :
    PoolState × AcqResult :=
  let pool := (lookupA s.pools key).getD []
  let (found, remaining, destroyedList) := scanIdle cfg.validate pool
  let s1 : PoolState :=
    { s with pools := insertA s.pools key remaining,
             destroyed := s.destroyed ++ destroyedList }
  match found with
  | some r => (s1, .got r)
  | none =>
    if cfg.maxSize ≠ 0 ∧ cfg.maxSize ≤ Pool.activeResourceCount s1 key then
      (s1, .atCapacity)
    else (s1, .createNew)

/-- The status of the task representing `_acquire`'s returned promise:
already settled for the idle-hit and capacity cases, waiting on the
factory otherwise. -/
def taskOf : AcqResult → TStatus
  | .got r => .ready (some r)
  | .atCapacity => .ready none
  | .createNew => .waitingFactory

/-- Method `_processPendingAcquireRequests`: shift the oldest pending request
off the key's queue (deleting the queue when the shift finds nothing),
and re-run `_acquire` on its behalf; the `.catch(...).then(...)`
continuation becomes a `forRequest` task. -/
def Pool.processPendingAcquireRequests (cfg : PoolConfig) (s : PoolState)
    (key : Key) : PoolState :=
  match lookupA s.acquireRequests key with
  | none => s
  | some [] => { s with acquireRequests := eraseA s.acquireRequests key }
  | some (reqId :: rest) =>
    let s1 := { s with acquireRequests := insertA s.acquireRequests key rest }
    let (s2, res) := Pool.acquireSync cfg s1 key
    { s2 with
        tasks := s2.tasks ++ [⟨s2.nextId, .forRequest key reqId, taskOf res⟩],
        nextId := s2.nextId + 1 }

/-- Method `_release`: if the key still has an idle-list entry, push the
resource when it validates and destroy it otherwise; if the key has been
purged, always destroy it.  Then decrement the active counter and
service the pending queue. -/
def Pool.release (cfg : PoolConfig) (s : PoolState) (key : Key) (r : Res) :
    PoolState :=
  let s1 : PoolState :=
    match lookupA s.pools key with
    | some pool =>
      if cfg.validate r then { s with pools := insertA s.pools key (r :: pool) }
      else { s with destroyed := s.destroyed ++ [r] }
    | none => { s with destroyed := s.destroyed ++ [r] }
  let s2 :=
    { s1 with activeResourceCounts := resourceReleased key s1.activeResourceCounts }
  Pool.processPendingAcquireRequests cfg s2 key

/-- Method `purge`: destroy every idle resource for the key (in pop order) and
delete the key's idle-list entry. -/
def Pool.purge (s : PoolState) (key : Key) : PoolState :=
  let pool := (lookupA s.pools key).getD []
  { s with destroyed := s.destroyed ++ pool, pools := eraseA s.pools key }

/-- Method `purgeAll`: purge every key currently in `this._pools`
(`Object.keys` snapshot, in insertion order). -/
def Pool.purgeAll (s : PoolState) : PoolState :=
  (s.pools.map Prod.fst).foldl Pool.purge s

/-- Method `has`: whether the key has a tracked idle-list entry. -/
def Pool.has (s : PoolState) (key : Key) : Bool :=
  (lookupA s.pools key).isSome

/-- Find a pending request object by identity in the registry. -/
def findReq : List PendingRequest → Nat → Option PendingRequest
  | [], _ => none
  | p :: t, i => if p.reqId = i then some p else findReq t i

/-- Write back a mutated pending request object. -/
def updateReq (l : List PendingRequest) (p : PendingRequest) :
    List PendingRequest :=
  l.map fun q => if q.reqId = p.reqId then p else q

/-- Find an outstanding task by id. -/
def findTask : List PTask → Nat → Option PTask
  | [], _ => none
  | t :: ts, i => if t.tid = i then some t else findTask ts i

/-- Remove a task once its continuation has run. -/
def removeTask (l : List PTask) (i : Nat) : List PTask :=
  l.filter fun t => t.tid ≠ i

/-- The factory's promise settles: the matching `waitingFactory` task
becomes `ready`/`failed`. -/
def factoryComplete (s : PoolState) (i : Nat) (st : TStatus) : PoolState :=
  { s with tasks := s.tasks.map fun t =>
      if t.tid = i ∧ t.status = .waitingFactory then { t with status := st } else t }

/-- Run the continuation of a settled task (a microtask):

* `direct`, resolved with a resource — the `.then` in `acquire`:
  `resourceAcquired` and deliver the resource to the caller;
* `direct`, resolved with `null` — out of capacity: create a
  `PendingRequest` (timer armed) and push it on the key's queue;
* `direct`, rejected — the caller's promise rejects with the factory
  error;
* `forRequest`, rejected — the `.catch`: fail the pending request with
  the factory error;
* `forRequest`, resolved with a resource — the `.then` in
  `_processPendingAcquireRequests`: if the request already completed
  (timed out), `_release` the resource back into the pool; otherwise
  `resourceAcquired` and resolve the request with it;
* `forRequest`, resolved with `null` — nothing to do. -/
def Pool.runTask (cfg : PoolConfig) (s : PoolState) (i : Nat) : PoolState :=
  match findTask s.tasks i with
  | none => s
  | some t =>
    match t.status with
    | .waitingFactory => s
    | .failed e =>
      let s0 := { s with tasks := removeTask s.tasks i }
      match t.cont with
      | .direct _ => { s0 with rejections := s0.rejections ++ [(i, e)] }
      | .forRequest _ reqId =>
        match findReq s0.requests reqId with
        | none => s0
        | some p =>
          let (p2, fired) := p.reject
          let s1 := { s0 with requests := updateReq s0.requests p2 }
          if fired then { s1 with rejections := s1.rejections ++ [(reqId, e)] }
          else s1
    | .ready res =>
      let s0 := { s with tasks := removeTask s.tasks i }
      match t.cont, res with
      | .direct key, some r =>
        { s0 with
            activeResourceCounts := resourceAcquired key s0.activeResourceCounts,
            deliveries := s0.deliveries ++ [(i, key, r)] }
      | .direct key, none =>
        let q := (lookupA s0.acquireRequests key).getD []
        { s0 with
            requests := s0.requests ++ [⟨s0.nextId, key, false, true⟩],
            acquireRequests := insertA s0.acquireRequests key (q ++ [s0.nextId]),
            nextId := s0.nextId + 1 }
      | .forRequest key reqId, some r =>
        match findReq s0.requests reqId with
        | none => s0
        | some p =>
          if p.isCompleted then Pool.release cfg s0 key r
          else
            let s1 :=
              { s0 with
                  activeResourceCounts := resourceAcquired key s0.activeResourceCounts }
            let (p2, fired) := p.resolve
            let s2 := { s1 with requests := updateReq s1.requests p2 }
            if fired then
              { s2 with deliveries := s2.deliveries ++ [(reqId, key, r)] }
            else s2
      | .forRequest _ _, none => s0

/-- The `setTimeout` callback of a pending request fires: filter the
request out of the key's queue if the queue still exists, then reject the
request with the acquisition-timeout error unless it already completed.
A cleared timer (`timerActive = false`) never fires. -/
def Pool.fireTimeout (cfg : PoolConfig) (s : PoolState) (reqId : Nat) :
    PoolState :=
  match findReq s.requests reqId with
  | none => s
  | some p =>
    if p.timerActive then
      let s0 : PoolState :=
        match lookupA s.acquireRequests p.key with
        | none => s
        | some q =>
          { s with acquireRequests :=
              insertA s.acquireRequests p.key (q.filter (· ≠ reqId)) }
      if p.isCompleted then
        { s0 with requests := updateReq s0.requests { p with timerActive := false } }
      else
        let (p2, fired) := ({ p with timerActive := false } : PendingRequest).reject
        let s1 := { s0 with requests := updateReq s0.requests p2 }
        if fired then
          { s1 with rejections :=
              s1.rejections ++ [(reqId, .timeoutErr cfg.acquisitionTimeout)] }
        else s1
    else s

/-- The synchronous part of a public `acquire(key)` call: run
`_acquire`'s body and register the `.then` continuation as a `direct`
task on `_acquire`'s returned promise. -/
def Pool.acquire (cfg : PoolConfig) (s : PoolState) (key : Key) : PoolState :=
  let (s1, res) := Pool.acquireSync cfg s key
  { s1 with tasks := s1.tasks ++ [⟨s1.nextId, .direct key, taskOf res⟩],
            nextId := s1.nextId + 1 }

/-- Scheduler/caller events driving the pool: public API calls, factory
promise settlements, microtask executions, and timer firings. -/
inductive Event where
  | callAcquire (key : Key)
  | callRelease (key : Key) (r : Res)
  | callPurge (key : Key)
  | callPurgeAll
  | factorySucceed (tid : Nat) (r : Res)
  | factoryFail (tid : Nat) (e : Nat)
  | runTask (tid : Nat)
  | fireTimeout (reqId : Nat)
  deriving DecidableEq

/-- One interpreter step. -/
def Pool.step (cfg : PoolConfig) (s : PoolState) : Event → PoolState
  | .callAcquire key => Pool.acquire cfg s key
  | .callRelease key r => Pool.release cfg s key r
  | .callPurge key => Pool.purge s key
  | .callPurgeAll => Pool.purgeAll s
  | .factorySucceed i r => factoryComplete s i (.ready (some r))
  | .factoryFail i e => factoryComplete s i (.failed (.factoryErr e))
  | .runTask i => Pool.runTask cfg s i
  | .fireTimeout reqId => Pool.fireTimeout cfg s reqId

/-- Run an event trace from the freshly constructed pool; its results
are exactly the reachable pool states. -/
def Pool.run (cfg : PoolConfig) (events : List Event) : PoolState :=
  events.foldl (Pool.step cfg) initState

/-! ### Association-list lemmas -/

theorem lookupA_insertA_self {β : Type} (l : List (Key × β)) (k : Key) (v : β) :
    lookupA (insertA l k v) k = some v := by
  induction l with
  | nil => simp [insertA, lookupA]
  | cons p t ih =>
    obtain ⟨k', w⟩ := p
    by_cases h : k' = k <;> simp [insertA, lookupA, h, ih]

theorem lookupA_insertA_ne {β : Type} (l : List (Key × β)) (k k' : Key) (v : β)
    (h : k' ≠ k) : lookupA (insertA l k v) k' = lookupA l k' := by
  induction l with
  | nil => simp [insertA, lookupA, Ne.symm h]
  | cons p t ih =>
    obtain ⟨k0, w⟩ := p
    by_cases h0 : k0 = k
    · subst h0
      simp [insertA, lookupA, Ne.symm h]
    · simp [insertA, h0, lookupA, ih]

theorem lookupA_eraseA_self {β : Type} (l : List (Key × β)) (k : Key) :
    lookupA (eraseA l k) k = none := by
  induction l with
  | nil => simp [eraseA, lookupA]
  | cons p t ih =>
    obtain ⟨k0, w⟩ := p
    by_cases h0 : k0 = k
    · subst h0
      simpa [eraseA, List.filter_cons] using ih
    · simp only [eraseA, List.filter_cons] at ih ⊢
      simpa [h0, lookupA] using ih

theorem lookupA_eraseA_ne {β : Type} (l : List (Key × β)) (k k' : Key)
    (h : k' ≠ k) : lookupA (eraseA l k) k' = lookupA l k' := by
  induction l with
  | nil => simp [eraseA, lookupA]
  | cons p t ih =>
    obtain ⟨k0, w⟩ := p
    by_cases h0 : k0 = k
    · subst h0
      simp only [eraseA, List.filter_cons] at ih ⊢
      simpa [lookupA, Ne.symm h] using ih
    · simp only [eraseA, List.filter_cons] at ih ⊢
      by_cases h1 : k0 = k'
      · simp [h0, h1, h, lookupA]
      · simpa [h0, h1, h, lookupA] using ih

theorem isSome_lookupA_insertA {β : Type} (l : List (Key × β)) (k k' : Key) (v : β)
    (h : (lookupA l k').isSome = true) :
    (lookupA (insertA l k v) k').isSome = true := by
  by_cases hk : k' = k
  · subst hk; simp [lookupA_insertA_self]
  · rw [lookupA_insertA_ne l k k' v hk]; exact h

theorem mem_of_lookupA {β : Type} {l : List (Key × β)} {k : Key} {v : β}
    (h : lookupA l k = some v) : (k, v) ∈ l := by
  induction l with
  | nil => simp [lookupA] at h
  | cons p t ih =>
    obtain ⟨k0, w⟩ := p
    by_cases h0 : k0 = k
    · subst h0
      simp [lookupA] at h
      simp [h]
    · simp [lookupA, h0] at h
      exact List.mem_cons_of_mem _ (ih h)

theorem mem_insertA {β : Type} {l : List (Key × β)} {k : Key} {v : β}
    {p : Key × β} (h : p ∈ insertA l k v) : p ∈ l ∨ p = (k, v) := by
  induction l with
  | nil => simp [insertA] at h; simp [h]
  | cons q t ih =>
    obtain ⟨k0, w⟩ := q
    by_cases h0 : k0 = k
    · subst h0
      simp [insertA] at h
      rcases h with h | h
      · right; simp [h]
      · left; simp [h]
    · simp [insertA, h0] at h
      rcases h with h | h
      · left; simp [h]
      · rcases ih h with h1 | h1
        · left; exact List.mem_cons_of_mem _ h1
        · right; exact h1

theorem mem_eraseA {β : Type} {l : List (Key × β)} {k : Key} {p : Key × β}
    (h : p ∈ eraseA l k) : p ∈ l :=
  List.mem_of_mem_filter h

/-! ### Frame lemmas for the pool operations -/

theorem acquireSync_frame (cfg : PoolConfig) (s : PoolState) (key : Key) :
    (Pool.acquireSync cfg s key).1.acquireRequests = s.acquireRequests ∧
    (Pool.acquireSync cfg s key).1.activeResourceCounts = s.activeResourceCounts ∧
    (Pool.acquireSync cfg s key).1.requests = s.requests ∧
    (Pool.acquireSync cfg s key).1.tasks = s.tasks ∧
    (Pool.acquireSync cfg s key).1.nextId = s.nextId ∧
    (Pool.acquireSync cfg s key).1.deliveries = s.deliveries ∧
    (Pool.acquireSync cfg s key).1.rejections = s.rejections := by
  unfold Pool.acquireSync
  rcases hsc : scanIdle cfg.validate ((lookupA s.pools key).getD []) with ⟨found, rem, ds⟩
  rcases found with _ | r
  · simp only [hsc]
    split <;> simp
  · simp [hsc]

theorem acquireSync_pools (cfg : PoolConfig) (s : PoolState) (key : Key) :
    ∃ rem, (Pool.acquireSync cfg s key).1.pools = insertA s.pools key rem := by
  unfold Pool.acquireSync
  rcases hsc : scanIdle cfg.validate ((lookupA s.pools key).getD []) with ⟨found, rem, ds⟩
  rcases found with _ | r
  · simp only [hsc]
    split <;> exact ⟨rem, rfl⟩
  · exact ⟨rem, by simp [hsc]⟩

theorem processPending_frame (cfg : PoolConfig) (s : PoolState) (key : Key) :
    (Pool.processPendingAcquireRequests cfg s key).activeResourceCounts =
      s.activeResourceCounts ∧
    (Pool.processPendingAcquireRequests cfg s key).requests = s.requests ∧
    (Pool.processPendingAcquireRequests cfg s key).deliveries = s.deliveries ∧
    (Pool.processPendingAcquireRequests cfg s key).rejections = s.rejections := by
  unfold Pool.processPendingAcquireRequests
  rcases hq : lookupA s.acquireRequests key with _ | (_ | ⟨i, rest⟩)
  · simp
  · simp
  · simp only
    rcases hA : Pool.acquireSync cfg
      { s with acquireRequests := insertA s.acquireRequests key rest } key with ⟨s2, res⟩
    have hf := acquireSync_frame cfg
      { s with acquireRequests := insertA s.acquireRequests key rest } key
    rw [hA] at hf
    simp at hf
    simp [hf]

theorem processPending_pools (cfg : PoolConfig) (s : PoolState) (key : Key) :
    (Pool.processPendingAcquireRequests cfg s key).pools = s.pools ∨
    ∃ rem, (Pool.processPendingAcquireRequests cfg s key).pools =
      insertA s.pools key rem := by
  unfold Pool.processPendingAcquireRequests
  rcases hq : lookupA s.acquireRequests key with _ | (_ | ⟨i, rest⟩)
  · left; rfl
  · left; rfl
  · right
    simp only
    rcases hA : Pool.acquireSync cfg
      { s with acquireRequests := insertA s.acquireRequests key rest } key with ⟨s2, res⟩
    have hp := acquireSync_pools cfg
      { s with acquireRequests := insertA s.acquireRequests key rest } key
    rw [hA] at hp
    simp at hp
    obtain ⟨rem, hrem⟩ := hp
    exact ⟨rem, by simp [hrem]⟩

theorem release_counts (cfg : PoolConfig) (s : PoolState) (key : Key) (r : Res) :
    (Pool.release cfg s key r).activeResourceCounts =
      resourceReleased key s.activeResourceCounts := by
  unfold Pool.release
  rcases hp : lookupA s.pools key with _ | pool
  · simpa using (processPending_frame cfg _ key).1
  · simp only
    split <;> simpa using (processPending_frame cfg _ key).1

theorem release_frame (cfg : PoolConfig) (s : PoolState) (key : Key) (r : Res) :
    (Pool.release cfg s key r).requests = s.requests ∧
    (Pool.release cfg s key r).deliveries = s.deliveries ∧
    (Pool.release cfg s key r).rejections = s.rejections := by
  unfold Pool.release
  rcases hp : lookupA s.pools key with _ | pool
  · have hf := processPending_frame cfg
      { s with destroyed := s.destroyed ++ [r],
               activeResourceCounts := resourceReleased key s.activeResourceCounts } key
    simpa using ⟨hf.2.1, hf.2.2.1, hf.2.2.2⟩
  · simp only
    split
    · have hf := processPending_frame cfg
        { s with pools := insertA s.pools key (r :: pool),
                 activeResourceCounts := resourceReleased key s.activeResourceCounts } key
      simpa using ⟨hf.2.1, hf.2.2.1, hf.2.2.2⟩
    · have hf := processPending_frame cfg
        { s with destroyed := s.destroyed ++ [r],
                 activeResourceCounts := resourceReleased key s.activeResourceCounts } key
      simpa using ⟨hf.2.1, hf.2.2.1, hf.2.2.2⟩

theorem release_pools_isSome (cfg : PoolConfig) (s : PoolState) (key : Key)
    (r : Res) (k' : Key) (h : (lookupA s.pools k').isSome = true) :
    (lookupA (Pool.release cfg s key r).pools k').isSome = true := by
  unfold Pool.release
  rcases hp : lookupA s.pools key with _ | pool
  all_goals simp only
  case none =>
    rcases processPending_pools cfg
      { s with destroyed := s.destroyed ++ [r],
               activeResourceCounts := resourceReleased key s.activeResourceCounts } key with
      hq | ⟨rem, hq⟩ <;> simp [hq] <;> first
        | exact h
        | exact isSome_lookupA_insertA _ _ _ _ h
  case some =>
    split
    · rcases processPending_pools cfg
        { s with pools := insertA s.pools key (r :: pool),
                 activeResourceCounts := resourceReleased key s.activeResourceCounts } key with
        hq | ⟨rem, hq⟩ <;> simp [hq]
      · exact isSome_lookupA_insertA _ _ _ _ h
      · exact isSome_lookupA_insertA _ _ _ _ (isSome_lookupA_insertA _ _ _ _ h)
    · rcases processPending_pools cfg
        { s with destroyed := s.destroyed ++ [r],
                 activeResourceCounts := resourceReleased key s.activeResourceCounts } key with
        hq | ⟨rem, hq⟩ <;> simp [hq]
      · exact h
      · exact isSome_lookupA_insertA _ _ _ _ h

theorem acquire_counts (cfg : PoolConfig) (s : PoolState) (key : Key) :
    (Pool.acquire cfg s key).activeResourceCounts = s.activeResourceCounts := by
  unfold Pool.acquire
  rcases hA : Pool.acquireSync cfg s key with ⟨s1, res⟩
  have hf := acquireSync_frame cfg s key
  rw [hA] at hf
  simpa using hf.2.1

theorem acquire_pools (cfg : PoolConfig) (s : PoolState) (key : Key) :
    ∃ rem, (Pool.acquire cfg s key).pools = insertA s.pools key rem := by
  unfold Pool.acquire
  rcases hA : Pool.acquireSync cfg s key with ⟨s1, res⟩
  have hp := acquireSync_pools cfg s key
  rw [hA] at hp
  obtain ⟨rem, hrem⟩ := hp
  exact ⟨rem, by simpa using hrem⟩

theorem purge_frame (s : PoolState) (key : Key) :
    (Pool.purge s key).acquireRequests = s.acquireRequests ∧
    (Pool.purge s key).activeResourceCounts = s.activeResourceCounts ∧
    (Pool.purge s key).requests = s.requests ∧
    (Pool.purge s key).tasks = s.tasks ∧
    (Pool.purge s key).nextId = s.nextId ∧
    (Pool.purge s key).deliveries = s.deliveries ∧
    (Pool.purge s key).rejections = s.rejections := by
  simp [Pool.purge]

theorem purgeAll_counts (s : PoolState) :
    (Pool.purgeAll s).activeResourceCounts = s.activeResourceCounts := by
  unfold Pool.purgeAll
  generalize s.pools.map Prod.fst = keys
  induction keys generalizing s with
  | nil => rfl
  | cons k ks ih =>
    simp only [List.foldl_cons]
    rw [ih (Pool.purge s k)]
    exact (purge_frame s k).2.1

theorem fireTimeout_frame (cfg : PoolConfig) (s : PoolState) (reqId : Nat) :
    (Pool.fireTimeout cfg s reqId).pools = s.pools ∧
    (Pool.fireTimeout cfg s reqId).activeResourceCounts = s.activeResourceCounts ∧
    (Pool.fireTimeout cfg s reqId).tasks = s.tasks ∧
    (Pool.fireTimeout cfg s reqId).nextId = s.nextId ∧
    (Pool.fireTimeout cfg s reqId).destroyed = s.destroyed ∧
    (Pool.fireTimeout cfg s reqId).deliveries = s.deliveries := by
  unfold Pool.fireTimeout
  rcases hR : findReq s.requests reqId with _ | p
  · simp
  · simp only
    by_cases ht : p.timerActive = true
    · rcases hq : lookupA s.acquireRequests p.key with _ | q <;>
        by_cases hc : p.isCompleted = true <;>
          simp [ht, hq, hc, PendingRequest.reject, PendingRequest.isCompleted] <;>
          simp [PendingRequest.isCompleted] at hc <;> simp [hc]
    · simp [ht]

theorem factoryComplete_frame (s : PoolState) (i : Nat) (st : TStatus) :
    (factoryComplete s i st).pools = s.pools ∧
    (factoryComplete s i st).acquireRequests = s.acquireRequests ∧
    (factoryComplete s i st).activeResourceCounts = s.activeResourceCounts ∧
    (factoryComplete s i st).requests = s.requests ∧
    (factoryComplete s i st).nextId = s.nextId ∧
    (factoryComplete s i st).destroyed = s.destroyed ∧
    (factoryComplete s i st).deliveries = s.deliveries ∧
    (factoryComplete s i st).rejections = s.rejections := by
  simp [factoryComplete]

/-! ### The active counters hold only positive values -/

/-- Every entry of an active-counter map is positive (so an entry is
deleted, never kept at zero). -/
def CountsPos (l : List (Key × Nat)) : Prop :=
  ∀ p ∈ l, 0 < p.2

theorem countsPos_resourceAcquired (key : Key) (l : List (Key × Nat))
    (h : CountsPos l) : CountsPos (resourceAcquired key l) := by
  intro p hp
  rcases mem_insertA hp with h1 | h1
  · exact h p h1
  · rw [h1]
    exact Nat.succ_pos _

theorem countsPos_resourceReleased (key : Key) (l : List (Key × Nat))
    (h : CountsPos l) : CountsPos (resourceReleased key l) := by
  have heq : resourceReleased key l =
      if 0 < (lookupA l key).getD 0 - 1 then
        insertA l key ((lookupA l key).getD 0 - 1)
      else eraseA l key := rfl
  rw [heq]
  split
  · intro p hp
    rcases mem_insertA hp with h1 | h1
    · exact h p h1
    · rw [h1]
      assumption
  · intro p hp
    exact h p (mem_eraseA hp)

theorem runTask_counts_pos (cfg : PoolConfig) (s : PoolState) (i : Nat)
    (h : CountsPos s.activeResourceCounts) :
    CountsPos (Pool.runTask cfg s i).activeResourceCounts := by
  unfold Pool.runTask
  rcases hT : findTask s.tasks i with _ | ⟨tid, cont, status⟩
  · exact h
  · rcases status with _ | res | e
    · exact h
    · rcases cont with key | ⟨key, reqId⟩
      · rcases res with _ | r
        · simp only
          exact h
        · simp only
          exact countsPos_resourceAcquired key _ h
      · rcases res with _ | r
        · simp only
          exact h
        · simp only
          rcases hR : findReq s.requests reqId with _ | p
          · exact h
          · simp only
            by_cases hc : p.isCompleted = true
            · rw [if_pos hc, release_counts]
              exact countsPos_resourceReleased key _ h
            · rw [if_neg hc]
              rcases hres : p.resolve with ⟨p2, fired⟩
              simp only [hres]
              split <;> exact countsPos_resourceAcquired key _ h
    · rcases cont with key | ⟨key, reqId⟩
      · simp only
        exact h
      · simp only
        rcases hR : findReq s.requests reqId with _ | p
        · exact h
        · simp only
          rcases hrej : p.reject with ⟨p2, fired⟩
          simp only [hrej]
          split <;> exact h

theorem step_counts_pos (cfg : PoolConfig) (s : PoolState) (e : Event)
    (h : CountsPos s.activeResourceCounts) :
    CountsPos (Pool.step cfg s e).activeResourceCounts := by
  rcases e with key | ⟨key, r⟩ | key | _ | ⟨i, r⟩ | ⟨i, er⟩ | i | reqId
  · rw [Pool.step, acquire_counts]
    exact h
  · rw [Pool.step, release_counts]
    exact countsPos_resourceReleased key _ h
  · rw [Pool.step, (purge_frame s key).2.1]
    exact h
  · rw [Pool.step, purgeAll_counts]
    exact h
  · rw [Pool.step, (factoryComplete_frame s i _).2.2.1]
    exact h
  · rw [Pool.step, (factoryComplete_frame s i _).2.2.1]
    exact h
  · exact runTask_counts_pos cfg s i h
  · rw [Pool.step, (fireTimeout_frame cfg s reqId).2.1]
    exact h

theorem run_counts_pos (cfg : PoolConfig) (events : List Event) :
    CountsPos (Pool.run cfg events).activeResourceCounts := by
  unfold Pool.run
  have hinit : CountsPos initState.activeResourceCounts := by
    intro p hp
    simp [initState] at hp
  generalize initState = s at hinit ⊢
  induction events generalizing s with
  | nil => exact hinit
  | cons e es ih =>
    exact ih (Pool.step cfg s e) (step_counts_pos cfg s e hinit)

/-! ### The idle-list entry of a key survives everything except purge -/

theorem runTask_pools_isSome (cfg : PoolConfig) (s : PoolState) (i : Nat)
    (k' : Key) (h : (lookupA s.pools k').isSome = true) :
    (lookupA (Pool.runTask cfg s i).pools k').isSome = true := by
  unfold Pool.runTask
  rcases hT : findTask s.tasks i with _ | ⟨tid, cont, status⟩
  · exact h
  · rcases status with _ | res | e
    · exact h
    · rcases cont with key | ⟨key, reqId⟩
      · rcases res with _ | r
        · simp only
          exact h
        · simp only
          exact h
      · rcases res with _ | r
        · simp only
          exact h
        · simp only
          rcases hR : findReq s.requests reqId with _ | p
          · exact h
          · simp only
            by_cases hc : p.isCompleted = true
            · rw [if_pos hc]
              exact release_pools_isSome cfg _ key r k' h
            · rw [if_neg hc]
              rcases hres : p.resolve with ⟨p2, fired⟩
              simp only [hres]
              split <;> exact h
    · rcases cont with key | ⟨key, reqId⟩
      · simp only
        exact h
      · simp only
        rcases hR : findReq s.requests reqId with _ | p
        · exact h
        · simp only
          rcases hrej : p.reject with ⟨p2, fired⟩
          simp only [hrej]
          split <;> exact h

theorem step_pools_isSome (cfg : PoolConfig) (s : PoolState) (e : Event)
    (k' : Key) (h1 : e ≠ Event.callPurge k') (h2 : e ≠ Event.callPurgeAll)
    (h : (lookupA s.pools k').isSome = true) :
    (lookupA (Pool.step cfg s e).pools k').isSome = true := by
  rcases e with key | ⟨key, r⟩ | key | _ | ⟨i, r⟩ | ⟨i, er⟩ | i | reqId
  · rw [Pool.step]
    obtain ⟨rem, hrem⟩ := acquire_pools cfg s key
    rw [hrem]
    exact isSome_lookupA_insertA _ _ _ _ h
  · exact release_pools_isSome cfg s key r k' h
  · have hk : key ≠ k' := fun hk => h1 (by rw [hk])
    rw [Pool.step]
    show (lookupA (Pool.purge s key).pools k').isSome = true
    rw [Pool.purge]
    simp only
    rw [lookupA_eraseA_ne _ _ _ (Ne.symm hk)]
    exact h
  · exact absurd rfl h2
  · rw [Pool.step, (factoryComplete_frame s i _).1]
    exact h
  · rw [Pool.step, (factoryComplete_frame s i _).1]
    exact h
  · exact runTask_pools_isSome cfg s i k' h
  · rw [Pool.step, (fireTimeout_frame cfg s reqId).1]
    exact h

/-! ### Registry and task list helpers -/

theorem findReq_some_id (l : List PendingRequest) (i : Nat) (p : PendingRequest)
    (h : findReq l i = some p) : p.reqId = i := by
  induction l with
  | nil => simp [findReq] at h
  | cons q t ih =>
    by_cases h0 : q.reqId = i
    · simp [findReq, h0] at h
      rw [← h]
      exact h0
    · simp [findReq, h0] at h
      exact ih h

theorem findReq_updateReq (l : List PendingRequest) (i : Nat)
    (p p2 : PendingRequest) (h : findReq l i = some p)
    (hid : p2.reqId = p.reqId) : findReq (updateReq l p2) i = some p2 := by
  have hpi : p.reqId = i := findReq_some_id l i p h
  induction l with
  | nil => simp [findReq] at h
  | cons q t ih =>
    by_cases h0 : q.reqId = i
    · simp [findReq, h0] at h
      simp [updateReq, findReq, h0, hid, hpi, h]
    · simp [findReq, h0] at h
      have hq : ¬ q.reqId = p2.reqId := by
        rw [hid, hpi]
        exact h0
      simp only [updateReq, List.map_cons, if_neg hq]
      rw [findReq, if_neg h0]
      exact ih h

theorem findTask_append_right (l l2 : List PTask) (i : Nat)
    (h : ∀ t ∈ l, t.tid ≠ i) : findTask (l ++ l2) i = findTask l2 i := by
  induction l with
  | nil => simp
  | cons t ts ih =>
    simp only [List.cons_append, findTask, if_neg (h t (List.mem_cons_self t ts))]
    exact ih fun u hu => h u (List.mem_cons_of_mem t hu)

theorem removeTask_append_last (l : List PTask) (t : PTask) (i : Nat)
    (h : ∀ u ∈ l, u.tid ≠ i) (ht : t.tid = i) :
    removeTask (l ++ [t]) i = l := by
  unfold removeTask
  rw [List.filter_append]
  have h1 : l.filter (fun u => u.tid ≠ i) = l :=
    List.filter_eq_self.mpr fun u hu => by simpa using h u hu
  have h2 : [t].filter (fun u => u.tid ≠ i) = [] := by
    simp [List.filter, ht]
  rw [h1, h2, List.append_nil]

theorem scanIdle_got (v : Res → Bool) (l : List Res) (r : Res)
    (rest ds : List Res) (h : scanIdle v l = (some r, rest, ds)) :
    v r = true ∧ (∀ d ∈ ds, v d = false) ∧ l = ds ++ r :: rest := by
  induction l generalizing rest ds with
  | nil => simp [scanIdle] at h
  | cons x t ih =>
    by_cases hv : v x = true
    · rw [scanIdle, if_pos hv] at h
      simp only [Prod.mk.injEq, Option.some.injEq] at h
      obtain ⟨h1, h2, h3⟩ := h
      subst h1; subst h2; subst h3
      simp [hv]
    · rcases hsc : scanIdle v t with ⟨f2, rem2, ds2⟩
      rw [scanIdle, if_neg hv, hsc] at h
      simp only [Prod.mk.injEq] at h
      obtain ⟨h1, h2, h3⟩ := h
      subst h2
      rw [← h3]
      obtain ⟨g1, g2, g3⟩ := ih rem2 ds2 (by rw [hsc, h1])
      refine ⟨g1, ?_, ?_⟩
      · intro d hd
        rcases List.mem_cons.mp hd with hd | hd
        · subst hd
          simpa using hv
        · exact g2 d hd
      · rw [List.cons_append, ← g3]

/-! ### Concrete configurations and traces used to settle the claims -/

/-- A validate function accepting every resource (the source default). -/
def alwaysValid : Res → Bool := fun _ => true

/-- A validate function rejecting every resource. -/
def neverValid : Res → Bool := fun _ => false

/-- Configuration with `maxSize = 1`. -/
def cfgOne : PoolConfig := ⟨1, 60000, alwaysValid⟩

/-- Unbounded configuration whose validate rejects everything. -/
def cfgNever : PoolConfig := ⟨0, 60000, neverValid⟩

/-- Unbounded configuration with the default validate. -/
def cfgFree : PoolConfig := ⟨0, 60000, alwaysValid⟩

/-- C1: `maxSize = 1`; two `acquire(0)` calls are made while neither
factory promise has resolved yet (so both pass the
`activeResourceCount(key) >= maxSize` check against a count of 0), then
both factories resolve and both `.then` continuations increment the
active counter: the pool reaches `activeResourceCount(0) = 2 > maxSize`.
The capacity ceiling the spec states is the evident intent of the check
in `_acquire`; the gap between that check and the post-creation
increment in `acquire` breaks it. -/
theorem maxSize_exceeded_on_overlapping_acquires :
    Pool.activeResourceCount
      (Pool.run cfgOne
        [.callAcquire 0, .callAcquire 0, .factorySucceed 0 10, .runTask 0,
         .factorySucceed 1 11, .runTask 1]) 0 = 2 ∧
    cfgOne.maxSize = 1 := by
  constructor <;> rfl

/-- C4 counterexample: with a validate that rejects resource 5, a direct
`acquire` whose factory produces 5 still delivers 5 to the caller — the
factory path of `_acquire` never runs `validate`, so the claim that every
handed-out resource satisfies `validate` at handoff is false. -/
theorem unvalidated_factory_resource_handed_out :
    (Pool.run cfgNever [.callAcquire 0, .factorySucceed 0 5, .runTask 0]).deliveries =
      [(0, 0, 5)] ∧
    cfgNever.validate 5 = false := by
  constructor <;> rfl

/-- C8 counterexample: resource 7 is acquired, released, and released a
second time while key 0 still has its idle-list entry.  The double
release is NOT routed to the destroy-only path: `_release` validates and
pushes it again, so the idle list ends up holding 7 twice and `destroy`
was never called. -/
theorem double_release_repopulates_idle_list :
    (Pool.run cfgFree
      [.callAcquire 0, .factorySucceed 0 7, .runTask 0,
       .callRelease 0 7, .callRelease 0 7]).pools = [(0, [7, 7])] ∧
    (Pool.run cfgFree
      [.callAcquire 0, .factorySucceed 0 7, .runTask 0,
       .callRelease 0 7, .callRelease 0 7]).destroyed = [] := by
  constructor <;> rfl

/-- C9 counterexample: after an `acquire(0)` whose factory rejects, key 0
has an empty idle list, no active-counter entry, no pending queue and no
outstanding work — yet `_acquire` left `this._pools[0] = []` in place, so
`has(0)` is `true` and per-key state IS retained for a fully quiescent
key. -/
theorem quiescent_key_retains_idle_entry :
    (Pool.run cfgOne [.callAcquire 0, .factoryFail 0 3, .runTask 0]).pools =
      [(0, [])] ∧
    lookupA (Pool.run cfgOne
      [.callAcquire 0, .factoryFail 0 3, .runTask 0]).activeResourceCounts 0 = none ∧
    lookupA (Pool.run cfgOne
      [.callAcquire 0, .factoryFail 0 3, .runTask 0]).acquireRequests 0 = none ∧
    (Pool.run cfgOne [.callAcquire 0, .factoryFail 0 3, .runTask 0]).tasks = [] ∧
    Pool.has (Pool.run cfgOne [.callAcquire 0, .factoryFail 0 3, .runTask 0]) 0 =
      true := by
  refine ⟨rfl, rfl, rfl, rfl, rfl⟩

/-- C9 (amended): in every reachable pool state the active-counter map
holds only positive entries — `resourceReleased` deletes an entry that
would drop to zero and `resourceAcquired` writes at least 1 — so absence
of an entry is the only representation of "no active resources".  (The
idle-list entry and an emptied pending queue, by contrast, can outlive a
quiescent key, as the counterexample shows.) -/
theorem active_counter_entries_positive (cfg : PoolConfig)
    (events : List Event) (k : Key) (n : Nat)
    (h : lookupA (Pool.run cfg events).activeResourceCounts k = some n) :
    0 < n :=
  run_counts_pos cfg events (k, n) (mem_of_lookupA h)

/-- Witness for the amended C9 at a concrete trace: one successful
acquisition leaves the counter entry `(0, 1)`, and the theorem yields its
positivity. -/
theorem active_counter_entries_positive_witness :
    lookupA (Pool.run cfgOne
      [.callAcquire 0, .factorySucceed 0 5, .runTask 0]).activeResourceCounts 0 =
      some 1 ∧ 0 < 1 :=
  ⟨rfl, active_counter_entries_positive cfgOne
    [.callAcquire 0, .factorySucceed 0 5, .runTask 0] 0 1 rfl⟩

/-- C10: once `acquire(key)` has run, `has(key)` stays `true` through any
further events that are not a purge of that key (or a purge of all
keys): `_acquire` installs `this._pools[key]` before consulting capacity
or the factory, and only `purge`/`purgeAll` ever delete an idle-list
entry. -/
theorem has_true_after_acquire_until_purge (cfg : PoolConfig) (s : PoolState)
    (key : Key) (post : List Event)
    (hpost : ∀ e ∈ post, e ≠ Event.callPurge key ∧ e ≠ Event.callPurgeAll) :
    Pool.has (post.foldl (Pool.step cfg) (Pool.step cfg s (.callAcquire key)))
      key = true := by
  have hstart :
      (lookupA (Pool.step cfg s (.callAcquire key)).pools key).isSome = true := by
    show (lookupA (Pool.acquire cfg s key).pools key).isSome = true
    obtain ⟨rem, hrem⟩ := acquire_pools cfg s key
    rw [hrem, lookupA_insertA_self]
    rfl
  generalize Pool.step cfg s (.callAcquire key) = s0 at hstart ⊢
  induction post generalizing s0 with
  | nil => exact hstart
  | cons e es ih =>
    simp only [List.foldl_cons]
    exact ih (fun u hu => hpost u (List.mem_cons_of_mem e hu))
      (Pool.step cfg s0 e)
      (step_pools_isSome cfg s0 e key (hpost e (List.mem_cons_self e es)).1
        (hpost e (List.mem_cons_self e es)).2 hstart)

/-- Witness for C10: from the fresh pool, `acquire(0)` with an empty
purge-free suffix leaves `has(0) = true`. -/
theorem has_true_after_acquire_until_purge_witness :
    Pool.has (List.foldl (Pool.step cfgOne)
      (Pool.step cfgOne initState (.callAcquire 0)) []) 0 = true :=
  has_true_after_acquire_until_purge cfgOne initState 0 []
    (fun e he => absurd he (List.not_mem_nil e))

/-- Configuration whose validate accepts only resource 2. -/
def cfgPick : PoolConfig := ⟨0, 60000, fun r => decide (r = 2)⟩

/-- A state whose key 0 idle list is `[1, 2, 3]` (top of stack first). -/
def sPick : PoolState := ⟨[(0, [1, 2, 3])], [], [], [], [], 0, [], [], []⟩

/-- C4 (amended): every resource handed out FROM THE IDLE LIST satisfies
`validate` at handoff — the pop loop pops most-recently-released first,
returns the first resource that validates, and destroys every popped
resource that fails validation before continuing; but a freshly
factory-created resource is handed out without being validated (see the
counterexample). -/
theorem idle_handout_validates (cfg : PoolConfig) (s : PoolState) (key : Key)
    (l rest ds : List Res) (r : Res)
    (hl : lookupA s.pools key = some l)
    (h : scanIdle cfg.validate l = (some r, rest, ds)) :
    cfg.validate r = true ∧
    (∀ d ∈ ds, cfg.validate d = false) ∧
    l = ds ++ r :: rest ∧
    (Pool.acquireSync cfg s key).2 = AcqResult.got r ∧
    (Pool.acquireSync cfg s key).1.destroyed = s.destroyed ++ ds := by
  obtain ⟨g1, g2, g3⟩ := scanIdle_got cfg.validate l r rest ds h
  refine ⟨g1, g2, g3, ?_, ?_⟩ <;>
  · unfold Pool.acquireSync
    rw [hl]
    simp only [Option.getD_some]
    rw [h]

/-- Witness for the amended C4 on the concrete idle list `[1, 2, 3]` with
a validate accepting only 2: resource 1 is popped first and destroyed,
resource 2 is handed out validated, resource 3 stays idle. -/
theorem idle_handout_validates_witness :
    cfgPick.validate 2 = true ∧
    cfgPick.validate 1 = false ∧
    ([1, 2, 3] : List Res) = [1] ++ 2 :: [3] ∧
    (Pool.acquireSync cfgPick sPick 0).2 = AcqResult.got 2 ∧
    (Pool.acquireSync cfgPick sPick 0).1.destroyed = [1] := by
  obtain ⟨a, b, c, d, e⟩ :=
    idle_handout_validates cfgPick sPick 0 [1, 2, 3] [3] [1] 2 rfl rfl
  exact ⟨a, b 1 (by simp), c, d, e⟩

/-- A state with one incomplete pending request (id 2) queued on key 0. -/
def sPend : PoolState :=
  ⟨[(0, [])], [(0, [2])], [], [⟨2, 0, false, true⟩], [], 3, [], [], []⟩

/-- C2: a pending request completes at most once.  An already-completed
request ignores further `resolve`/`reject` calls; the first completion
marks it completed and cancels its timer; and a timer firing on a
not-yet-completed request removes it from its key's pending queue and
rejects it with the timeout error carrying the configured duration,
leaving the registry copy completed with the timer cleared. -/
theorem pending_request_completes_once (cfg : PoolConfig) (s : PoolState)
    (reqId : Nat) (p q : PendingRequest) (qu : List Nat)
    (hq : q.completed = true)
    (hfind : findReq s.requests reqId = some p)
    (hact : p.timerActive = true)
    (hcomp : p.completed = false)
    (hqueue : lookupA s.acquireRequests p.key = some qu) :
    q.resolve = (q, false) ∧
    q.reject = (q, false) ∧
    p.resolve = ({ p with completed := true, timerActive := false }, true) ∧
    p.reject = ({ p with completed := true, timerActive := false }, true) ∧
    (Pool.fireTimeout cfg s reqId).rejections =
      s.rejections ++ [(reqId, Err.timeoutErr cfg.acquisitionTimeout)] ∧
    lookupA (Pool.fireTimeout cfg s reqId).acquireRequests p.key =
      some (qu.filter (· ≠ reqId)) ∧
    findReq (Pool.fireTimeout cfg s reqId).requests reqId =
      some { p with completed := true, timerActive := false } := by
  have hncomp : ¬ p.isCompleted = true := by
    simp [PendingRequest.isCompleted, hcomp]
  have hft : Pool.fireTimeout cfg s reqId =
      { s with
          acquireRequests :=
            insertA s.acquireRequests p.key (qu.filter (· ≠ reqId)),
          requests :=
            updateReq s.requests { p with completed := true, timerActive := false },
          rejections :=
            s.rejections ++ [(reqId, Err.timeoutErr cfg.acquisitionTimeout)] } := by
    unfold Pool.fireTimeout
    rw [hfind]
    simp only [hact, if_true, hqueue]
    rw [if_neg hncomp]
    simp [PendingRequest.reject, hcomp]
  refine ⟨?_, ?_, ?_, ?_, ?_, ?_, ?_⟩
  · simp [PendingRequest.resolve, hq]
  · simp [PendingRequest.reject, hq]
  · simp [PendingRequest.resolve, hcomp]
  · simp [PendingRequest.reject, hcomp]
  · rw [hft]
  · rw [hft]
    exact lookupA_insertA_self _ _ _
  · rw [hft]
    exact findReq_updateReq s.requests reqId p _ hfind rfl

/-- Witness for C2 at the concrete state `sPend`: request 2 (incomplete,
timer armed, queued on key 0) against an unrelated completed request. -/
theorem pending_request_completes_once_witness :
    (⟨9, 1, true, false⟩ : PendingRequest).resolve = (⟨9, 1, true, false⟩, false) ∧
    (⟨9, 1, true, false⟩ : PendingRequest).reject = (⟨9, 1, true, false⟩, false) ∧
    (⟨2, 0, false, true⟩ : PendingRequest).resolve = (⟨2, 0, true, false⟩, true) ∧
    (⟨2, 0, false, true⟩ : PendingRequest).reject = (⟨2, 0, true, false⟩, true) ∧
    (Pool.fireTimeout cfgOne sPend 2).rejections = [(2, Err.timeoutErr 60000)] ∧
    lookupA (Pool.fireTimeout cfgOne sPend 2).acquireRequests 0 = some [] ∧
    findReq (Pool.fireTimeout cfgOne sPend 2).requests 2 =
      some ⟨2, 0, true, false⟩ :=
  pending_request_completes_once cfgOne sPend 2 ⟨2, 0, false, true⟩
    ⟨9, 1, true, false⟩ [2] rfl rfl rfl rfl rfl

/-- C3: when pending-request servicing has obtained a resource, the
`.then` in `_processPendingAcquireRequests` checks the request's
completed flag: if the request already completed (it timed out), the
resource is routed through the full `_release` protocol — not discarded
and not counted active; only if still pending is the active counter
incremented and the request resolved with the resource. -/
theorem servicing_resource_for_completed_request_is_released
    (cfg : PoolConfig) (s : PoolState) (i : Nat) (key : Key) (reqId : Nat)
    (r : Res) (p : PendingRequest)
    (ht : findTask s.tasks i = some ⟨i, .forRequest key reqId, .ready (some r)⟩)
    (hp : findReq s.requests reqId = some p) :
    Pool.step cfg s (.runTask i) =
      if p.completed then
        Pool.release cfg { s with tasks := removeTask s.tasks i } key r
      else
        { s with
            tasks := removeTask s.tasks i,
            activeResourceCounts := resourceAcquired key s.activeResourceCounts,
            requests := updateReq s.requests
              { p with completed := true, timerActive := false },
            deliveries := s.deliveries ++ [(reqId, key, r)] } := by
  show Pool.runTask cfg s i = _
  unfold Pool.runTask
  rw [ht]
  simp only
  rw [hp]
  dsimp only
  by_cases hc : p.completed = true
  · have hcI : p.isCompleted = true := hc
    rw [if_pos hcI, if_pos hc]
  · have hcI : ¬ p.isCompleted = true := hc
    rw [if_neg hcI, if_neg hc]
    simp [PendingRequest.resolve, hc]

/-- A state holding a completed pending request (id 2) and a settled
servicing task (id 5) carrying resource 9 for it on key 0. -/
def sServe : PoolState :=
  ⟨[(0, [])], [(0, [])], [], [⟨2, 0, true, false⟩],
   [⟨5, .forRequest 0 2, .ready (some 9)⟩], 6, [], [], []⟩

/-- Witness for C3 at `sServe`: the request already completed, so running
task 5 routes resource 9 through `_release` (it lands in the idle list,
is never delivered, and the active counter is not incremented). -/
theorem servicing_resource_for_completed_request_is_released_witness :
    Pool.step cfgOne sServe (.runTask 5) =
      (if (⟨2, 0, true, false⟩ : PendingRequest).completed then
        Pool.release cfgOne { sServe with tasks := removeTask sServe.tasks 5 } 0 9
      else
        { sServe with
            tasks := removeTask sServe.tasks 5,
            activeResourceCounts := resourceAcquired 0 sServe.activeResourceCounts,
            requests := updateReq sServe.requests ⟨2, 0, true, false⟩,
            deliveries := sServe.deliveries ++ [(2, 0, 9)] }) ∧
    (Pool.step cfgOne sServe (.runTask 5)).pools = [(0, [9])] ∧
    (Pool.step cfgOne sServe (.runTask 5)).deliveries = [] ∧
    lookupA (Pool.step cfgOne sServe (.runTask 5)).activeResourceCounts 0 = none :=
  ⟨servicing_resource_for_completed_request_is_released cfgOne sServe 5 0 2 9
      ⟨2, 0, true, false⟩ rfl rfl, rfl, rfl, rfl⟩

/-- Running `_processPendingAcquireRequests` on a non-empty queue shifts exactly
the head request off the queue and registers one servicing task for it,
numbered with the current fresh id. -/
theorem processPending_shift (cfg : PoolConfig) (s : PoolState) (key : Key)
    (reqId : Nat) (rest : List Nat)
    (h : lookupA s.acquireRequests key = some (reqId :: rest)) :
    lookupA (Pool.processPendingAcquireRequests cfg s key).acquireRequests key =
      some rest ∧
    ∃ st, (Pool.processPendingAcquireRequests cfg s key).tasks =
      s.tasks ++ [⟨s.nextId, TaskCont.forRequest key reqId, st⟩] := by
  unfold Pool.processPendingAcquireRequests
  rw [h]
  simp only
  rcases hA : Pool.acquireSync cfg
    { s with acquireRequests := insertA s.acquireRequests key rest } key with ⟨s2, res⟩
  have hf := acquireSync_frame cfg
    { s with acquireRequests := insertA s.acquireRequests key rest } key
  rw [hA] at hf
  simp at hf
  obtain ⟨f1, f2, f3, f4, f5, f6, f7⟩ := hf
  constructor
  · simp only [f1]
    exact lookupA_insertA_self _ _ _
  · exact ⟨taskOf res, by simp [f4, f5]⟩

/-- C5: pending requests are served oldest first.  A `release` on a key
whose queue is `reqId :: rest` dequeues exactly the head `reqId`
(leaving `rest`) and registers the servicing attempt for it; and a
queued `acquire` (a `direct` task that settled with `null`) appends its
new request at the tail of the queue — together, strict FIFO order. -/
theorem release_serves_oldest_pending_first (cfg : PoolConfig) (s : PoolState)
    (key key2 : Key) (r : Res) (reqId i : Nat) (rest : List Nat)
    (h : lookupA s.acquireRequests key = some (reqId :: rest))
    (ht : findTask s.tasks i = some ⟨i, .direct key2, .ready none⟩) :
    lookupA (Pool.step cfg s (.callRelease key r)).acquireRequests key =
      some rest ∧
    (∃ st, (Pool.step cfg s (.callRelease key r)).tasks =
      s.tasks ++ [⟨s.nextId, TaskCont.forRequest key reqId, st⟩]) ∧
    lookupA (Pool.step cfg s (.runTask i)).acquireRequests key2 =
      some ((lookupA s.acquireRequests key2).getD [] ++ [s.nextId]) := by
  refine ⟨?_, ?_, ?_⟩
  · show lookupA (Pool.release cfg s key r).acquireRequests key = some rest
    unfold Pool.release
    rcases hp : lookupA s.pools key with _ | pool
    · exact (processPending_shift cfg
        { s with destroyed := s.destroyed ++ [r],
                 activeResourceCounts := resourceReleased key s.activeResourceCounts }
        key reqId rest h).1
    · simp only
      split
      · exact (processPending_shift cfg
          { s with pools := insertA s.pools key (r :: pool),
                   activeResourceCounts := resourceReleased key s.activeResourceCounts }
          key reqId rest h).1
      · exact (processPending_shift cfg
          { s with destroyed := s.destroyed ++ [r],
                   activeResourceCounts := resourceReleased key s.activeResourceCounts }
          key reqId rest h).1
  · show ∃ st, (Pool.release cfg s key r).tasks = _
    unfold Pool.release
    rcases hp : lookupA s.pools key with _ | pool
    · exact (processPending_shift cfg
        { s with destroyed := s.destroyed ++ [r],
                 activeResourceCounts := resourceReleased key s.activeResourceCounts }
        key reqId rest h).2
    · simp only
      split
      · exact (processPending_shift cfg
          { s with pools := insertA s.pools key (r :: pool),
                   activeResourceCounts := resourceReleased key s.activeResourceCounts }
          key reqId rest h).2
      · exact (processPending_shift cfg
          { s with destroyed := s.destroyed ++ [r],
                   activeResourceCounts := resourceReleased key s.activeResourceCounts }
          key reqId rest h).2
  · show lookupA (Pool.runTask cfg s i).acquireRequests key2 = _
    unfold Pool.runTask
    rw [ht]
    simp only
    exact lookupA_insertA_self _ _ _

/-- Witness for C5: releasing resource 7 on key 0 (queue `[4, 8]`) leaves
queue `[8]` and a servicing task for request 4; running the settled
`direct` task 3 appends its fresh request at the tail of key 1's queue. -/
theorem release_serves_oldest_pending_first_witness :
    lookupA (Pool.step cfgFree
      ⟨[(0, [])], [(0, [4, 8]), (1, [])], [], [], [⟨3, .direct 1, .ready none⟩],
       9, [], [], []⟩ (.callRelease 0 7)).acquireRequests 0 = some [8] ∧
    (Pool.step cfgFree
      ⟨[(0, [])], [(0, [4, 8]), (1, [])], [], [], [⟨3, .direct 1, .ready none⟩],
       9, [], [], []⟩ (.callRelease 0 7)).tasks =
      [⟨3, .direct 1, .ready none⟩, ⟨9, TaskCont.forRequest 0 4, .ready (some 7)⟩] ∧
    lookupA (Pool.step cfgFree
      ⟨[(0, [])], [(0, [4, 8]), (1, [])], [], [], [⟨3, .direct 1, .ready none⟩],
       9, [], [], []⟩ (.runTask 3)).acquireRequests 1 = some [9] :=
  ⟨(release_serves_oldest_pending_first cfgFree
      ⟨[(0, [])], [(0, [4, 8]), (1, [])], [], [], [⟨3, .direct 1, .ready none⟩],
       9, [], [], []⟩ 0 1 7 4 3 [8] rfl rfl).1,
   rfl,
   (release_serves_oldest_pending_first cfgFree
      ⟨[(0, [])], [(0, [4, 8]), (1, [])], [], [], [⟨3, .direct 1, .ready none⟩],
       9, [], [], []⟩ 0 1 7 4 3 [8] rfl rfl).2.2⟩

/-- Running `_acquire` on an empty (or missing) idle list, below capacity: the
idle-list entry is (re)installed and the factory is invoked. -/
theorem acquireSync_empty_create (cfg : PoolConfig) (s : PoolState) (key : Key)
    (hidle : (lookupA s.pools key).getD [] = [])
    (hcap : cfg.maxSize = 0 ∨ Pool.activeResourceCount s key < cfg.maxSize) :
    Pool.acquireSync cfg s key =
      ({ s with pools := insertA s.pools key [] }, .createNew) := by
  unfold Pool.acquireSync
  rw [hidle]
  simp only [scanIdle]
  split
  next hcond =>
    exfalso
    rcases hcap with hc | hc
    · exact hcond.1 hc
    · exact absurd hcond.2 (Nat.not_le.mpr hc)
  next => simp

/-- C6: when the factory's promise for a direct `acquire(key)` call
rejects, the caller's promise is rejected with that same error, and the
active counters are left exactly as they were (in particular still 0 /
absent for an untracked key). -/
theorem factory_failure_propagates_without_state_increment
    (cfg : PoolConfig) (s : PoolState) (key : Key) (e : Nat)
    (hidle : (lookupA s.pools key).getD [] = [])
    (hcap : cfg.maxSize = 0 ∨ Pool.activeResourceCount s key < cfg.maxSize)
    (htid : ∀ t ∈ s.tasks, t.tid ≠ s.nextId) :
    (Pool.step cfg (Pool.step cfg (Pool.step cfg s (.callAcquire key))
        (.factoryFail s.nextId e)) (.runTask s.nextId)).activeResourceCounts =
      s.activeResourceCounts ∧
    (Pool.step cfg (Pool.step cfg (Pool.step cfg s (.callAcquire key))
        (.factoryFail s.nextId e)) (.runTask s.nextId)).rejections =
      s.rejections ++ [(s.nextId, Err.factoryErr e)] ∧
    Pool.activeResourceCount
      (Pool.step cfg (Pool.step cfg (Pool.step cfg s (.callAcquire key))
        (.factoryFail s.nextId e)) (.runTask s.nextId)) key =
      Pool.activeResourceCount s key := by
  have h1 : Pool.step cfg s (.callAcquire key) =
      { s with pools := insertA s.pools key [],
               tasks := s.tasks ++ [⟨s.nextId, .direct key, .waitingFactory⟩],
               nextId := s.nextId + 1 } := by
    show Pool.acquire cfg s key = _
    unfold Pool.acquire
    rw [acquireSync_empty_create cfg s key hidle hcap]
    rfl
  have h2 : Pool.step cfg (Pool.step cfg s (.callAcquire key))
      (.factoryFail s.nextId e) =
      { s with pools := insertA s.pools key [],
               tasks := s.tasks ++ [⟨s.nextId, .direct key, .failed (.factoryErr e)⟩],
               nextId := s.nextId + 1 } := by
    rw [h1]
    show factoryComplete _ s.nextId (.failed (.factoryErr e)) = _
    unfold factoryComplete
    dsimp only
    rw [List.map_append]
    have hid : s.tasks.map (fun t =>
        if t.tid = s.nextId ∧ t.status = TStatus.waitingFactory
        then { t with status := TStatus.failed (.factoryErr e) } else t) = s.tasks := by
      rw [show s.tasks.map (fun t =>
          if t.tid = s.nextId ∧ t.status = TStatus.waitingFactory
          then { t with status := TStatus.failed (.factoryErr e) } else t) =
          s.tasks.map id from
        List.map_congr_left (fun t ht => by simp [htid t ht]), List.map_id]
    rw [hid]
    simp
  have h3 : Pool.step cfg (Pool.step cfg (Pool.step cfg s (.callAcquire key))
      (.factoryFail s.nextId e)) (.runTask s.nextId) =
      { s with pools := insertA s.pools key [],
               tasks := s.tasks,
               nextId := s.nextId + 1,
               rejections := s.rejections ++ [(s.nextId, Err.factoryErr e)] } := by
    rw [h2]
    show Pool.runTask cfg _ s.nextId = _
    unfold Pool.runTask
    dsimp only
    have hfind : findTask
        (s.tasks ++ [(⟨s.nextId, .direct key, .failed (.factoryErr e)⟩ : PTask)])
        s.nextId = some ⟨s.nextId, .direct key, .failed (.factoryErr e)⟩ := by
      rw [findTask_append_right _ _ _ htid]
      simp [findTask]
    rw [hfind]
    dsimp only
    rw [removeTask_append_last _ _ _ htid rfl]
  rw [h3]
  exact ⟨rfl, rfl, rfl⟩

/-- Witness for C6 from the fresh pool: the factory for `acquire(0)`
rejects with error 7; the caller is rejected with that error and the
counters stay empty. -/
theorem factory_failure_propagates_witness :
    (Pool.step cfgOne (Pool.step cfgOne (Pool.step cfgOne initState
        (.callAcquire 0)) (.factoryFail 0 7)) (.runTask 0)).activeResourceCounts =
      [] ∧
    (Pool.step cfgOne (Pool.step cfgOne (Pool.step cfgOne initState
        (.callAcquire 0)) (.factoryFail 0 7)) (.runTask 0)).rejections =
      [(0, Err.factoryErr 7)] ∧
    Pool.activeResourceCount
      (Pool.step cfgOne (Pool.step cfgOne (Pool.step cfgOne initState
        (.callAcquire 0)) (.factoryFail 0 7)) (.runTask 0)) 0 =
      Pool.activeResourceCount initState 0 :=
  factory_failure_propagates_without_state_increment cfgOne initState 0 7 rfl
    (Or.inr (by decide)) (fun t ht => absurd ht (List.not_mem_nil t))

/-- The function `_acquire`, run on an empty (or missing) idle list
only (re)installs the empty idle-list entry, whatever the capacity
decision. -/
theorem acquireSync_empty_state (cfg : PoolConfig) (s : PoolState) (key : Key)
    (hidle : (lookupA s.pools key).getD [] = []) :
    (Pool.acquireSync cfg s key).1 = { s with pools := insertA s.pools key [] } := by
  unfold Pool.acquireSync
  rw [hidle]
  simp only [scanIdle]
  split <;> simp

/-- C7: `purge(key)` hands every idle resource of the key to `destroy`
(in pop order) and deletes the key's idle-list entry — `has(key)`
becomes false and the next `acquire(key)` goes to the factory — while
the active counters, pending queues, request registry and outstanding
tasks are untouched. -/
theorem purge_destroys_idle_and_nothing_else (cfg : PoolConfig)
    (s : PoolState) (key : Key) (l : List Res)
    (hl : lookupA s.pools key = some l)
    (hcap : cfg.maxSize = 0 ∨ Pool.activeResourceCount s key < cfg.maxSize) :
    (Pool.step cfg s (.callPurge key)).destroyed = s.destroyed ++ l ∧
    (Pool.step cfg s (.callPurge key)).pools = eraseA s.pools key ∧
    Pool.has (Pool.step cfg s (.callPurge key)) key = false ∧
    (Pool.step cfg s (.callPurge key)).activeResourceCounts =
      s.activeResourceCounts ∧
    (Pool.step cfg s (.callPurge key)).acquireRequests = s.acquireRequests ∧
    (Pool.step cfg s (.callPurge key)).requests = s.requests ∧
    (Pool.step cfg s (.callPurge key)).tasks = s.tasks ∧
    (Pool.step cfg (Pool.step cfg s (.callPurge key)) (.callAcquire key)).tasks =
      s.tasks ++ [⟨s.nextId, TaskCont.direct key, TStatus.waitingFactory⟩] := by
  have hp : Pool.step cfg s (.callPurge key) =
      { s with destroyed := s.destroyed ++ l, pools := eraseA s.pools key } := by
    show Pool.purge s key = _
    unfold Pool.purge
    rw [hl]
    rfl
  have hhas : Pool.has (Pool.step cfg s (.callPurge key)) key = false := by
    rw [hp]
    unfold Pool.has
    dsimp only
    rw [lookupA_eraseA_self]
    rfl
  have hidle2 : (lookupA (Pool.step cfg s (.callPurge key)).pools key).getD [] =
      [] := by
    rw [hp]
    dsimp only
    rw [lookupA_eraseA_self]
    rfl
  have hacq : (Pool.step cfg (Pool.step cfg s (.callPurge key))
      (.callAcquire key)).tasks =
      s.tasks ++ [⟨s.nextId, TaskCont.direct key, TStatus.waitingFactory⟩] := by
    show (Pool.acquire cfg (Pool.step cfg s (.callPurge key)) key).tasks = _
    unfold Pool.acquire
    rw [acquireSync_empty_create cfg (Pool.step cfg s (.callPurge key)) key
      hidle2 hcap]
    rw [hp]
    rfl
  refine ⟨?_, ?_, hhas, ?_, ?_, ?_, ?_, hacq⟩ <;> rw [hp]

/-- Witness for C7: purging key 0 with idle list `[4, 5]` destroys both,
removes the entry, and the subsequent `acquire(0)` is a factory call. -/
theorem purge_destroys_idle_and_nothing_else_witness :
    (Pool.step cfgFree ⟨[(0, [4, 5])], [], [], [], [], 3, [], [], []⟩
      (.callPurge 0)).destroyed = [4, 5] ∧
    (Pool.step cfgFree ⟨[(0, [4, 5])], [], [], [], [], 3, [], [], []⟩
      (.callPurge 0)).pools = [] ∧
    Pool.has (Pool.step cfgFree ⟨[(0, [4, 5])], [], [], [], [], 3, [], [], []⟩
      (.callPurge 0)) 0 = false ∧
    (Pool.step cfgFree ⟨[(0, [4, 5])], [], [], [], [], 3, [], [], []⟩
      (.callPurge 0)).activeResourceCounts = [] ∧
    (Pool.step cfgFree ⟨[(0, [4, 5])], [], [], [], [], 3, [], [], []⟩
      (.callPurge 0)).acquireRequests = [] ∧
    (Pool.step cfgFree ⟨[(0, [4, 5])], [], [], [], [], 3, [], [], []⟩
      (.callPurge 0)).requests = [] ∧
    (Pool.step cfgFree ⟨[(0, [4, 5])], [], [], [], [], 3, [], [], []⟩
      (.callPurge 0)).tasks = [] ∧
    (Pool.step cfgFree (Pool.step cfgFree
      ⟨[(0, [4, 5])], [], [], [], [], 3, [], [], []⟩ (.callPurge 0))
      (.callAcquire 0)).tasks = [⟨3, TaskCont.direct 0, TStatus.waitingFactory⟩] :=
  purge_destroys_idle_and_nothing_else cfgFree
    ⟨[(0, [4, 5])], [], [], [], [], 3, [], [], []⟩ 0 [4, 5] rfl (Or.inl rfl)

/-- C8 (amended): a release for a key with no idle-list entry (purged or
never seen) is not an error: it takes the destroy-only path — the
resource goes to `destroy`, the key's idle list is not repopulated with
it (it stays absent, or is re-initialized empty by pending-request
servicing) — and the active counter is decremented as usual.  A double
release for a key that still has its idle-list entry, however, is
processed like any release and re-pushed when it validates (see the
counterexample). -/
theorem release_missing_key_destroys (cfg : PoolConfig) (s : PoolState)
    (key : Key) (r : Res)
    (h : lookupA s.pools key = none) :
    (Pool.step cfg s (.callRelease key r)).destroyed = s.destroyed ++ [r] ∧
    (lookupA (Pool.step cfg s (.callRelease key r)).pools key = none ∨
     lookupA (Pool.step cfg s (.callRelease key r)).pools key = some []) ∧
    (Pool.step cfg s (.callRelease key r)).activeResourceCounts =
      resourceReleased key s.activeResourceCounts := by
  have hboth : (Pool.release cfg s key r).destroyed = s.destroyed ++ [r] ∧
      (lookupA (Pool.release cfg s key r).pools key = none ∨
       lookupA (Pool.release cfg s key r).pools key = some []) := by
    unfold Pool.release
    rw [h]
    dsimp only
    unfold Pool.processPendingAcquireRequests
    dsimp only
    rcases hq : lookupA s.acquireRequests key with _ | (_ | ⟨i2, rest2⟩)
    · exact ⟨rfl, Or.inl h⟩
    · exact ⟨rfl, Or.inl h⟩
    · dsimp only
      have hidle3 : (lookupA ({ s with
          acquireRequests := insertA s.acquireRequests key rest2,
          activeResourceCounts := resourceReleased key s.activeResourceCounts,
          destroyed := s.destroyed ++ [r] } : PoolState).pools key).getD [] =
          [] := by
        dsimp only
        rw [h]
        rfl
      rw [acquireSync_empty_state cfg _ key hidle3]
      refine ⟨rfl, Or.inr ?_⟩
      dsimp only
      rw [lookupA_insertA_self]
  exact ⟨hboth.1, hboth.2, release_counts cfg s key r⟩

/-- Witness for the amended C8: releasing resource 5 for never-seen key 0
destroys it, leaves no idle entry, and decrements the counter 2 → 1. -/
theorem release_missing_key_destroys_witness :
    (Pool.step cfgFree ⟨[], [], [(0, 2)], [], [], 0, [], [], []⟩
      (.callRelease 0 5)).destroyed = [5] ∧
    (lookupA (Pool.step cfgFree ⟨[], [], [(0, 2)], [], [], 0, [], [], []⟩
      (.callRelease 0 5)).pools 0 = none ∨
     lookupA (Pool.step cfgFree ⟨[], [], [(0, 2)], [], [], 0, [], [], []⟩
      (.callRelease 0 5)).pools 0 = some []) ∧
    (Pool.step cfgFree ⟨[], [], [(0, 2)], [], [], 0, [], [], []⟩
      (.callRelease 0 5)).activeResourceCounts = [(0, 1)] :=
  release_missing_key_destroys cfgFree ⟨[], [], [(0, 2)], [], [], 0, [], [], []⟩
    0 5 rfl
